import Mathlib

/-!
Verification of the BlokusPentobi repository: a shallow embedding of the
engine-session wrapper (`PentobiGTP.py`), the board codec (`utils.py`),
board normalization (`board_norming.py`), the players (`PentobiPlayers.py`)
and the game loop (`simulate.py`), together with theorems settling the
spec's claims about them.

The external Pentobi engine is an opaque oracle.  It is modelled by:
  * an `apply` function (`Board → Nat → String → Option Board`) giving the
    board produced by a `play` protocol command (`none` = the engine
    answers `?`, which the Python wrapper turns into an exception);
  * a stack of previous boards inside `GTPState.hist`: the engine's `undo`
    command succeeds exactly when the engine still has a move to retract,
    i.e. when `hist` is non-empty.
-/

namespace BlokusPentobi

/-- A board as produced by `parse_gtp_board_to_matrix`: a matrix of cell
values, `-1` for empty and `0..3` for the four colours. -/
abbrev Board := List (List Int)

/-- State of one `PentobiGTP` session (`PentobiGTP.py`).
`board` is the engine's current board, `hist` the boards before each move
the engine still remembers (most recent first), `current_player` and
`previous_players` are the Python-side turn-tracking attributes, and
`log` records the protocol commands issued to the engine process. -/
structure GTPState where
  board : Board
  hist : List Board
  current_player : Nat
  previous_players : List Nat
  log : List String
deriving Repr, DecidableEq

/-- The state right after `PentobiGTP.__init__`: empty move history,
`current_player = 1`, no previous players (`PentobiGTP.py` lines 122-123). -/
def initState (b : Board) : GTPState :=
  { board := b, hist := [], current_player := 1, previous_players := [], log := [] }

/-- The text of the GTP `play` command sent by `play_move`. -/
def playCmd (pid : Nat) (move : String) : String :=
  "play " ++ toString pid ++ " " ++ move

/-- `PentobiGTP.play_move` (lines 276-287): raise unless `pid` has the
turn; if the move is not `"pass"` send the `play` command (which raises if
the engine rejects it, modelled by `ap` returning `none`); then append
`pid` to `previous_players` and set `current_player := pid % 4 + 1`
(`_change_player`, line 249-250). -/
def play_move (ap : Board → Nat → String → Option Board) (s : GTPState)
    (pid : Nat) (move : String) : Except String GTPState :=
  if pid ≠ s.current_player then .error "turn-violation"
  else if move ≠ "pass" then
    match ap s.board pid move with
    | Option.none => .error "command-failed"
    | Option.some b =>
        .ok { board := b
              hist := s.board :: s.hist
              current_player := pid % 4 + 1
              previous_players := s.previous_players ++ [pid]
              log := s.log ++ [playCmd pid move] }
  else
    .ok { s with current_player := pid % 4 + 1
                 previous_players := s.previous_players ++ [pid] }

/-- `PentobiGTP.undo_last_move` (lines 266-274): no-op when
`previous_players` is empty; otherwise send `undo` (the engine rejects it,
raising `ValueError`, when it has no move to retract — empty `hist`), then
pop the last element of `previous_players` into `current_player`. -/
def undo_last_move (s : GTPState) : Except String GTPState :=
  if h : s.previous_players = [] then .ok s
  else
    match s.hist with
    | [] => .error "Undo failed"
    | b :: rest =>
        .ok { board := b
              hist := rest
              current_player := s.previous_players.getLast h
              previous_players := s.previous_players.dropLast
              log := s.log ++ ["undo"] }

/-- Seats are the integers 1..4. -/
def ValidSeat (p : Nat) : Prop := 1 ≤ p ∧ p ≤ 4

/-- The session invariant behind claim C10: the current player and every
recorded previous player are valid seats. -/
def SeatInv (s : GTPState) : Prop :=
  ValidSeat s.current_player ∧ ∀ p ∈ s.previous_players, ValidSeat p

/-! ### State cloning (`PentobiGTP.set_to_state`, lines 190-202)

The engine's sgf save/load round-trips the full engine-side game state,
so a saved file is modelled as the pair `(board, hist)` of the saved
session.  `set_to_state` writes the other session's state to a temporary
file, loads it, copies `current_player`, and removes the file — with no
try/finally, so a failing load (the engine answering `?`, modelled by
`loadOk = false`) propagates before `os.remove` runs. -/

/-- A world for `set_to_state`: the file system plus the two sessions. -/
structure CloneWorld where
  files : List (String × (Board × List Board))
  A : GTPState
  B : GTPState
deriving Repr, DecidableEq

/-- `B.set_to_state(A)`: save A to the temporary file `tmp`, load it into
B (`loadOk` says whether the engine accepts the load), copy
`A.current_player`, then delete `tmp`.  The second component is the
exception raised, if any; on an exception the world is left as the
partially-executed code left it. -/
def set_to_state (tmp : String) (loadOk : Bool) (w : CloneWorld) :
    CloneWorld × Option String :=
  let files1 := (tmp, (w.A.board, w.A.hist)) :: w.files
  if loadOk then
    let B1 := { w.B with board := w.A.board, hist := w.A.hist }
    let B2 := { B1 with current_player := w.A.current_player }
    ({ files := files1.eraseP (fun f => f.1 == tmp), A := w.A, B := B2 },
      Option.none)
  else
    ({ files := files1, A := w.A, B := w.B }, Option.some "load-failed")

/-! ### The session pool (`get_pentobi_move_session`, lines 13-44)

The Python code keys the global `_GTP_MOVE_SESSIONS` dict by
`hash(frozenset(starting_kwargs.items()))` after merging in the default
kwargs.  The frozenset of the merged items is the canonical,
key-order-insensitive value; it is modelled by listing the resolved value
of every default key in the fixed default-key order. -/

/-- A Python value appearing in the session kwargs. -/
inductive PyVal where
  | pynone : PyVal
  | int (n : Int) : PyVal
  | str (s : String) : PyVal
  | bool (b : Bool) : PyVal
deriving DecidableEq, Repr

/-- The `default_kwargs` dict of `get_pentobi_move_session`. -/
def default_kwargs : List (String × PyVal) :=
  [("gtp_path", .pynone), ("level", .int 1), ("book", .pynone),
   ("config", .pynone), ("game", .str "classic"), ("seed", .pynone),
   ("showboard", .bool false), ("nobook", .bool false),
   ("noresign", .bool true), ("threads", .int 1)]

/-- The value key `k` gets in `{**default_kwargs, **kw}`. -/
def resolve (kw : List (String × PyVal)) (k : String) : PyVal :=
  match kw.lookup k with
  | Option.some v => v
  | Option.none => (default_kwargs.lookup k).getD .pynone

/-- The canonical configuration fingerprint: the resolved value of every
default key, in the fixed default-key order (the order-insensitive
content of `frozenset(starting_kwargs.items())`). -/
def fingerprint (kw : List (String × PyVal)) : List (String × PyVal) :=
  default_kwargs.map (fun p => (p.1, resolve kw p.1))

/-- The `_GTP_MOVE_SESSIONS` cache: fingerprints mapped to session
identities, plus a counter producing fresh identities. -/
structure SessionPool where
  entries : List (List (String × PyVal) × Nat)
  next : Nat
deriving Repr

/-- Pool well-formedness: cached identities are below the fresh counter
and pairwise distinct. -/
def PoolWF (pool : SessionPool) : Prop :=
  (∀ e ∈ pool.entries, e.2 < pool.next) ∧ (pool.entries.map Prod.snd).Nodup

/-- `get_pentobi_move_session(starting_kwargs)`: return the cached
session for the fingerprint, creating and caching a fresh one if absent. -/
def get_session (kw : List (String × PyVal)) (pool : SessionPool) :
    Nat × SessionPool :=
  let fp := fingerprint kw
  match pool.entries.lookup fp with
  | Option.some sid => (sid, pool)
  | Option.none =>
      (pool.next, { entries := (fp, pool.next) :: pool.entries,
                    next := pool.next + 1 })

/-- The empty initial pool (`_GTP_MOVE_SESSIONS = {}`). -/
def emptyPool : SessionPool := { entries := [], next := 0 }

/-! ### The board codec (`utils.parse_gtp_board_to_matrix`, lines 3-58)

The board dump is a string, modelled as a list of characters.  The
helper functions below are the character-level translations of the
Python string operations used by the parser. -/

/-- `board.replace(">", " ").replace("<", " ")`: both patterns are single
characters, so the replacement is a character-wise map. -/
def replace_arrows (cs : List Char) : List Char :=
  cs.map (fun c => if c = '>' ∨ c = '<' then ' ' else c)

/-- Python `str.split(sep)` for a one-character separator: splits into the
(possibly empty) chunks between separator occurrences. -/
def split_on_char (sep : Char) : List Char → List (List Char)
  | [] => [[]]
  | c :: cs =>
      let r := split_on_char sep cs
      if c = sep then [] :: r
      else
        match r with
        | [] => [[c]]
        | w :: ws => (c :: w) :: ws

/-- The `conversion_map` dict: a lookup that is `none` on every token
outside the fixed glyph table (Python raises `KeyError` there). -/
def conversion_map : List Char → Option Int
  | ['.'] => Option.some (-1)
  | ['X'] => Option.some 0
  | ['O'] => Option.some 1
  | ['#'] => Option.some 2
  | ['@'] => Option.some 3
  | ['+'] => Option.some (-1)
  | _ => Option.none

/-- The tokenization stage of `parse_gtp_board_to_matrix`: substitute the
capture arrows, split into lines, drop the first and last line
(`board_in_lines[1:-1]`), and per line split on blanks, drop empty
tokens, drop the row label and keep the first 20 tokens
(`board_in_lines_splitted[i][1:21]`). -/
def board_rows (text : List Char) : List (List (List Char)) :=
  let b := replace_arrows text
  let lines := ((split_on_char '\n' b).drop 1).dropLast
  lines.map (fun line =>
    ((((split_on_char ' ' line).filter (fun t => !t.isEmpty)).drop 1).take 20))

/-- `parse_gtp_board_to_matrix`: map every kept token through
`conversion_map` (raising on an unknown token), then build the numpy
matrix — `np.array` accepts the nested list exactly when all rows have
equal length and raises `ValueError` on a ragged one. -/
def parse_gtp_board_to_matrix (text : List Char) :
    Except String (List (List Int)) :=
  match (board_rows text).mapM (fun r => r.mapM conversion_map) with
  | Option.none => .error "KeyError"
  | Option.some matrix =>
      if matrix.all (fun r => r.length == (matrix.headD []).length) then
        .ok matrix
      else .error "inhomogeneous shape"

/-! ### The externally-evaluated player (`PentobiPlayers.py`, lines 111-209) -/

/-- `np.sum(board == v)`: how many cells of the board hold value `v`. -/
def count_eq (board : Board) (v : Int) : Nat :=
  (board.map (fun row => row.count v)).sum

/-- `GreedyExternalPlayer.evaluate_board` (lines 203-208):
`np.sum(board == self.pid) - np.sum(board == 4 - self.pid)`. -/
def evaluate_board (pid : Int) (board : Board) : Int :=
  (count_eq board pid : Int) - (count_eq board (4 - pid) : Int)

/-- Follows the spec's words, for comparison with `evaluate_board`: the
"opponent" seat "two positions away in the four-seat rotation" from seat
`pid`, i.e. the seat reached by advancing the fixed rotation
`p ↦ (p mod 4) + 1` twice.  For seats 1,2,3,4 this is 3,4,1,2. -/
def spec_opponent_two_away (pid : Int) : Int := ((pid + 1) % 4) + 1

/-- The loop inside `np.argmax`: first index of the maximum. -/
def argmax_go (bestVal : Int) (bestIdx idx : Nat) : List Int → Nat
  | [] => bestIdx
  | x :: xs =>
      if bestVal < x then argmax_go x idx (idx + 1) xs
      else argmax_go bestVal bestIdx (idx + 1) xs

/-- `np.argmax` on a list of scores: the first index attaining the
maximum, or `none` (Python: `ValueError`) on an empty list. -/
def np_argmax : List Int → Option Nat
  | [] => Option.none
  | x :: xs => Option.some (argmax_go x 0 1 xs)

/-- `PentobiExternalPlayer.calc_next_states` (lines 152-163): for each
move that is not `"pass"`, play it, record the resulting board, and undo
it, threading the (speculatively mutated and restored) session state. -/
def calc_next_states (ap : Board → Nat → String → Option Board) (pid : Nat) :
    GTPState → List String → Except String (List Board × GTPState)
  | s, [] => .ok ([], s)
  | s, m :: ms =>
      if m = "pass" then calc_next_states ap pid s ms
      else
        match play_move ap s pid m with
        | .error e => .error e
        | .ok s1 =>
            match undo_last_move s1 with
            | .error e => .error e
            | .ok s2 =>
                match calc_next_states ap pid s2 ms with
                | .error e => .error e
                | .ok (bs, s3) => .ok (s1.board :: bs, s3)

/-- `PentobiExternalPlayer._make_move_with_external_player`
(lines 166-172): score the speculative next states and return
`moves[np.argmax(values)]`. -/
def make_move_with_external_player (evalf : Board → Int)
    (ap : Board → Nat → String → Option Board) (pid : Nat) (s : GTPState)
    (moves : List String) : Except String (String × GTPState) :=
  match calc_next_states ap pid s moves with
  | .error e => .error e
  | .ok (states, s1) =>
      let values := states.map evalf
      match np_argmax values with
      | Option.none => .error "attempt to get argmax of an empty sequence"
      | Option.some i => .ok (moves.getD i "", s1)

/-- `PentobiExternalPlayer.play_move` (lines 175-197) with the `"best"`
selection strategy: the legal moves `legal` come from the engine's
`all_legal` reply, the chosen move is the external arg-max, a `"="`
answer is turned into `"pass"`, and the chosen move is committed with
`play_move`. -/
def external_play_move (evalf : Board → Int)
    (ap : Board → Nat → String → Option Board) (legal : List String)
    (s : GTPState) (pid : Nat) : Except String GTPState :=
  match make_move_with_external_player evalf ap pid s legal with
  | .error e => .error e
  | .ok (mv, s1) =>
      let mv := if mv = "=" then "pass" else mv
      play_move ap s1 pid mv

/-! ### Board normalization (`board_norming.py`)

A 20×20 numpy array is modelled as a function on indices. -/

/-- A 20×20 matrix of cell values. -/
abbrev Mat := Fin 20 → Fin 20 → Int

/-- One counter-clockwise quarter turn, `np.rot90(board, 1)`:
`new[i][j] = old[j][n-1-i]`. -/
def rot90 (b : Mat) : Mat := fun i j => b j i.rev

/-- The corner values `[board[0,0], board[0,-1], board[-1,-1], board[-1,0]]`
inspected by `rotate_board_to_perspective`. -/
def corner_pids (b : Mat) : List Int :=
  [b 0 0, b 0 (Fin.last 19), b (Fin.last 19) (Fin.last 19), b (Fin.last 19) 0]

/-- `rotate_board_to_perspective` (lines 3-28): find the first corner
holding `perspective_pid` (index 0 when it is in no corner) and rotate
the board counter-clockwise that many quarter turns. -/
def rotate_board_to_perspective (b : Mat) (perspective_pid : Int) : Mat :=
  rot90^[if perspective_pid ∈ corner_pids b then
           (corner_pids b).indexOf perspective_pid
         else 0] b

/-- `normalize_board_to_perspective` (lines 30-50): add `4 - pid` to every
cell, reduce mod 4, restore the `-1` cells recorded by the mask, and
rotate the result to the perspective of value 0. -/
def normalize_board_to_perspective (b : Mat) (perspective_pid : Int) : Mat :=
  rotate_board_to_perspective
    (fun i j => if b i j = -1 then -1 else (b i j + (4 - perspective_pid)) % 4)
    0

/-! ### The game loop (`simulate.play_game`, lines 4-27)

`play_game` is duck-typed in the Python source: it needs of its `game`
argument only `is_game_finished`, `current_player` and of its players
only `set_pentobi_session` and `play_move`.  It is therefore modelled
generically: a game state type `G`, a `finished` test, a `current` seat
query, and players carrying a seat, a bound session and a `play_move`
action on the shared state.  Wall-clock time is a monotone sequence of
`time.time()` readings: reading 0 is `start_time`, reading `i ≥ 1` is the
check before iteration `i`. -/

/-- A player as the game loop sees it. -/
structure SimPlayer (G : Type) where
  pid : Nat
  sess : Option G
  step : G → G

/-- `player.set_pentobi_session(game)`. -/
def set_pentobi_session {G : Type} (p : SimPlayer G) (g : G) : SimPlayer G :=
  { p with sess := Option.some g }

/-- The monotone wall clock supplying the `time.time()` readings. -/
structure GameClock where
  read : Nat → Nat
  mono : ∀ i, read i < read (i + 1)

/-- The `while not game.is_game_finished() and time.time() - start_time
< timeout` loop of `play_game`: while the game is unfinished and the
elapsed time is below the timeout, step the player at list position
`current_player - 1` (`players[game.current_player - 1]`). -/
def play_game_loop {G : Type} (C : GameClock) (finished : G → Bool)
    (current : G → Nat) (players : List (SimPlayer G))
    (start timeout : Nat) (i : Nat) (g : G) : G :=
  if h : finished g = false ∧ C.read i - start < timeout then
    play_game_loop C finished current players start timeout (i + 1)
      ((players.getD (current g - 1) ⟨0, Option.none, id⟩).step g)
  else g
termination_by start + timeout - C.read i
decreasing_by
  have hm := C.mono i
  omega

/-- `simulate.play_game`: rebind every player to the session, record the
start time, run the loop, and return the session (the rebound players are
returned too, since rebinding is a mutation visible to the caller). -/
def play_game {G : Type} (C : GameClock) (finished : G → Bool)
    (current : G → Nat) (players : List (SimPlayer G)) (timeout : Nat)
    (g : G) : List (SimPlayer G) × G :=
  let bound := players.map (fun p => set_pentobi_session p g)
  let start := C.read 0
  (bound, play_game_loop C finished current bound start timeout 1 g)

/-! ### Concrete inputs for witnesses and counterexamples -/

/-- The all-empty 20×20 board. -/
def board0 : Board := List.replicate 20 (List.replicate 20 (-1))

/-- A 20×20 board with one cell of colour 0, the rest empty. -/
def board1 : Board :=
  ((0 : Int) :: List.replicate 19 (-1)) ::
    List.replicate 19 (List.replicate 20 (-1))

/-- An engine oracle whose `play` always succeeds and yields `board1`. -/
def exApply : Board → Nat → String → Option Board :=
  fun _ _ _ => Option.some board1

/-- An engine oracle whose `play` always succeeds, leaving the board as is. -/
def idApply : Board → Nat → String → Option Board :=
  fun b _ _ => Option.some b

/-- The session state reached from `initState board0` by
`play_move 1 "a1"` under the oracle `exApply`. -/
def cePre : GTPState :=
  { board := board1, hist := [board0], current_player := 2,
    previous_players := [1], log := [playCmd 1 "a1"] }

/-- The state after additionally playing `"pass"` as seat 2. -/
def cePost : GTPState :=
  { board := board1, hist := [board0], current_player := 3,
    previous_players := [1, 2], log := [playCmd 1 "a1"] }

/-- The state `undo_last_move` produces from `cePost`: the engine
retracted the real move of seat 1, not the pass of seat 2. -/
def ceAfter : GTPState :=
  { board := board0, hist := [], current_player := 2,
    previous_players := [1], log := [playCmd 1 "a1", "undo"] }

/-- A clone world: session A mid-game (`cePre`), session B freshly
constructed, no files on disk. -/
def ceWorld : CloneWorld :=
  { files := [], A := cePre, B := initState board0 }

/-- Session kwargs: level 5, two threads. -/
def kw1 : List (String × PyVal) := [("level", .int 5), ("threads", .int 2)]

/-- The same kwargs as `kw1`, supplied in the other key order. -/
def kw2 : List (String × PyVal) := [("threads", .int 2), ("level", .int 5)]

/-- Kwargs differing from `kw1` in one resolved value. -/
def kw3 : List (String × PyVal) := [("level", .int 6)]

/-- A 20×20 board, cells in the valid range, with a single cell of
value 2. -/
def ceBoardC3 : Board :=
  ((2 : Int) :: List.replicate 19 (-1)) ::
    List.replicate 19 (List.replicate 20 (-1))

/-- A 20×20 board with five cells of value 1 and three of value 3. -/
def boardA : Board :=
  ([1, 1, 1, 1, 1, 3, 3, 3] ++ List.replicate 12 (-1)) ::
    List.replicate 19 (List.replicate 20 (-1))

/-- A 20×20 board with four cells of value 1 and four of value 3. -/
def boardB : Board :=
  ([1, 1, 1, 1, 3, 3, 3, 3] ++ List.replicate 12 (-1)) ::
    List.replicate 19 (List.replicate 20 (-1))

/-- A board dump whose two body rows each hold three parseable cells. -/
def ceShortDump : List Char := "=\n1 X O .\n2 # @ +\nA B C".toList

/-- A board dump with an unknown glyph `Z` in a body row. -/
def ceBadDump : List Char := "=\n1 X Z\n2 # @\nA B".toList

/-- A full 20×20 board dump with a capture arrow and a trailing
annotation on the first body row. -/
def fullDump : List Char :=
  ("=\n" ++
   "20 X>O # @ + . . . . . . . . . . . . . . .  Blue(X): 1\n" ++
   "19 . . . . . . . . . . . . . . . . . . . .\n" ++
   "18 . . . . . . . . . . . . . . . . . . . .\n" ++
   "17 . . . . . . . . . . . . . . . . . . . .\n" ++
   "16 . . . . . . . . . . . . . . . . . . . .\n" ++
   "15 . . . . . . . . . . . . . . . . . . . .\n" ++
   "14 . . . . . . . . . . . . . . . . . . . .\n" ++
   "13 . . . . . . . . . . . . . . . . . . . .\n" ++
   "12 . . . . . . . . . . . . . . . . . . . .\n" ++
   "11 . . . . . . . . . . . . . . . . . . . .\n" ++
   "10 . . . . . . . . . . . . . . . . . . . .\n" ++
   "9 . . . . . . . . . . . . . . . . . . . .\n" ++
   "8 . . . . . . . . . . . . . . . . . . . .\n" ++
   "7 . . . . . . . . . . . . . . . . . . . .\n" ++
   "6 . . . . . . . . . . . . . . . . . . . .\n" ++
   "5 . . . . . . . . . . . . . . . . . . . .\n" ++
   "4 . . . . . . . . . . . . . . . . . . . .\n" ++
   "3 . . . . . . . . . . . . . . . . . . . .\n" ++
   "2 . . . . . . . . . . . . . . . . . . . .\n" ++
   "1 . . . . . . . . . . . . . . . . . . . .\n" ++
   "A B C D E F G H I J K L M N O P Q R S T").toList

/-- The matrix `fullDump` parses to: the four glyphs and an empty cell
row 20, all other cells empty. -/
def expectedFull : List (List Int) :=
  ([0, 1, 2, 3] ++ List.replicate 16 (-1)) ::
    List.replicate 19 (List.replicate 20 (-1))

/-- The matrix the parser's conversion stage produces when every kept
token is in the glyph table. -/
def converted_rows (text : List Char) : List (List Int) :=
  (board_rows text).map (fun r => r.map (fun t => (conversion_map t).getD 0))

/-- `np.array`'s acceptance condition on the nested row lists: all rows
have the length of the first. -/
def rows_uniform (m : List (List Int)) : Bool :=
  m.all (fun r => r.length == (m.headD []).length)

/-- Every cell is either empty or a value in 0..3 (the shape of every
`normalize_board_to_perspective` output). -/
def CellsNormed (m : Mat) : Prop :=
  ∀ i j, m i j = -1 ∨ (0 ≤ m i j ∧ m i j < 4)

/-- A deterministic wall clock ticking one unit per reading. -/
def ceClock : GameClock := ⟨fun i => i, fun i => Nat.lt_succ_self i⟩

/-- A toy game over state `Nat`: finished once the state is positive. -/
def ceFinished : Nat → Bool := fun g => decide (1 ≤ g)

/-- The toy game's current player: always seat 1. -/
def ceCurrent : Nat → Nat := fun _ => 1

/-- Two players listed out of seat order: position 0 holds seat 2
(stepping adds 10), position 1 holds seat 1 (stepping adds 1). -/
def cePlayers : List (SimPlayer Nat) :=
  [⟨2, Option.none, fun g => g + 10⟩, ⟨1, Option.none, fun g => g + 1⟩]

end BlokusPentobi

namespace BlokusPentobi

/-! ## Helper lemmas -/

theorem getLast_append_singleton {α : Type} (l : List α) (a : α)
    (h : l ++ [a] ≠ []) : (l ++ [a]).getLast h = a :=
  List.getLast_append _

theorem dropLast_append_singleton {α : Type} (l : List α) (a : α) :
    (l ++ [a]).dropLast = l := by
  simp

/-! ## C1: play_move then undo_last_move -/

/-- C1 (amended): for every seat holding the turn and every move **other
than the sentinel `"pass"`** that the engine accepts, `play_move`
followed immediately by `undo_last_move` restores `current_player`, the
board, and the rest of the session state.  (For `"pass"` the claim fails:
see the counterexample.) -/
theorem play_then_undo_restores (ap : Board → Nat → String → Option Board)
    (s s' : GTPState) (pid : Nat) (move : String)
    (hm : move ≠ "pass") (h : play_move ap s pid move = .ok s') :
    ∃ s'', undo_last_move s' = .ok s'' ∧ pid = s.current_player ∧
      s''.current_player = s.current_player ∧ s''.board = s.board ∧
      s''.previous_players = s.previous_players ∧ s''.hist = s.hist := by
  unfold play_move at h
  by_cases hp : pid ≠ s.current_player
  · rw [if_pos hp] at h
    exact absurd h (by simp)
  · rw [if_neg hp, if_pos hm] at h
    push_neg at hp
    cases hap : ap s.board pid move with
    | none => rw [hap] at h; exact absurd h (by simp)
    | some b =>
        rw [hap] at h
        injection h with h'
        subst h'
        refine ⟨{ board := s.board, hist := s.hist,
                  current_player :=
                    (s.previous_players ++ [pid]).getLast (by simp),
                  previous_players := (s.previous_players ++ [pid]).dropLast,
                  log := (s.log ++ [playCmd pid move]) ++ ["undo"] },
                ?_, hp, ?_, rfl, ?_, rfl⟩
        · unfold undo_last_move
          rw [dif_neg (by simp)]
        · exact (getLast_append_singleton s.previous_players pid
            (by simp)).trans hp
        · exact dropLast_append_singleton s.previous_players pid

/-- Witness for C1's amended theorem at a concrete input: seat 1 plays
`"a1"` from the initial state and the round trip restores everything. -/
theorem play_then_undo_restores_witness :
    ("a1" : String) ≠ "pass" ∧
    play_move exApply (initState board0) 1 "a1" = .ok cePre ∧
    ∃ s'', undo_last_move cePre = .ok s'' ∧
      1 = (initState board0).current_player ∧
      s''.current_player = (initState board0).current_player ∧
      s''.board = (initState board0).board ∧
      s''.previous_players = (initState board0).previous_players ∧
      s''.hist = (initState board0).hist :=
  ⟨by decide, rfl,
    play_then_undo_restores exApply (initState board0) cePre 1 "a1"
      (by decide) rfl⟩

/-- Counterexample to C1 as stated: with the sentinel `"pass"` included,
the round trip does **not** restore the board.  Seat 1 plays a real move
(board becomes `board1`), seat 2 plays `"pass"` (no engine command, but
`previous_players` grows), and `undo_last_move` then makes the engine
retract seat 1's real move: the board drops back to `board0`, not to the
pre-pass value `board1`. -/
theorem pass_play_undo_counterexample :
    play_move exApply (initState board0) 1 "a1" = .ok cePre ∧
    play_move exApply cePre 2 "pass" = .ok cePost ∧
    undo_last_move cePost = .ok ceAfter ∧
    ceAfter.board ≠ cePost.board :=
  ⟨rfl, rfl, rfl, by decide⟩

/-! ## C2: the play_move contract -/

/-- C2: `play_move pid move` fails with the turn-violation error exactly
when `pid` is not the current player; when `pid` has the turn it
succeeds (provided the engine accepts the move), sends the engine `play`
command exactly when `move ≠ "pass"` (visible in the command log),
appends `pid` to `previous_players`, and advances `current_player` to
`pid % 4 + 1`. -/
theorem play_move_contract (ap : Board → Nat → String → Option Board)
    (s : GTPState) (pid : Nat) (move : String) :
    (pid ≠ s.current_player →
      play_move ap s pid move = .error "turn-violation") ∧
    (pid = s.current_player → move = "pass" →
      play_move ap s pid move =
        .ok { s with current_player := pid % 4 + 1,
                     previous_players := s.previous_players ++ [pid] }) ∧
    (pid = s.current_player → move ≠ "pass" →
      ∀ b, ap s.board pid move = Option.some b →
      play_move ap s pid move =
        .ok { board := b, hist := s.board :: s.hist,
              current_player := pid % 4 + 1,
              previous_players := s.previous_players ++ [pid],
              log := s.log ++ [playCmd pid move] }) := by
  refine ⟨fun h => ?_, fun h hm => ?_, fun h hm b hb => ?_⟩
  · unfold play_move
    rw [if_pos h]
  · unfold play_move
    rw [if_neg (by simp [h]), if_neg (by simp [hm])]
  · unfold play_move
    rw [if_neg (by simp [h]), if_pos hm, hb]

/-- Witness for C2 at concrete inputs: out-of-turn seat 2 is rejected
from the initial state; in-turn seat 1 passing succeeds without an
engine command; in-turn seat 1 playing `"a1"` succeeds and logs the
`play` command. -/
theorem play_move_contract_witness :
    play_move idApply (initState board0) 2 "a1" = .error "turn-violation" ∧
    play_move idApply (initState board0) 1 "pass" =
      .ok { initState board0 with current_player := 2,
                                  previous_players := [1] } ∧
    play_move idApply (initState board0) 1 "a1" =
      .ok { board := board0, hist := [board0], current_player := 2,
            previous_players := [1], log := [playCmd 1 "a1"] } :=
  ⟨(play_move_contract idApply (initState board0) 2 "a1").1 (by decide),
   by
     have h := (play_move_contract idApply (initState board0) 1 "pass").2.1
       rfl rfl
     simpa using h,
   by
     have h := (play_move_contract idApply (initState board0) 1 "a1").2.2
       rfl (by decide) board0 rfl
     simpa using h⟩

/-! ## C10: the current-player invariant -/

/-- C10: `current_player` is always a seat in 1..4 — it is 1 after
construction, and `play_move`, `undo_last_move` and `set_to_state` all
preserve the invariant `SeatInv` (valid current player, all recorded
previous players valid). -/
theorem current_player_always_valid_seat :
    (∀ b, (initState b).current_player = 1 ∧ SeatInv (initState b)) ∧
    (∀ ap s pid move s', SeatInv s → play_move ap s pid move = .ok s' →
      SeatInv s') ∧
    (∀ s s', SeatInv s → undo_last_move s = .ok s' → SeatInv s') ∧
    (∀ tmp loadOk w, SeatInv w.A → SeatInv w.B →
      SeatInv (set_to_state tmp loadOk w).1.B) := by
  refine ⟨fun b => ⟨rfl, by unfold SeatInv ValidSeat
                            refine ⟨⟨?_, ?_⟩, ?_⟩ <;> simp [initState]⟩,
          fun ap s pid move s' hs h => ?_,
          fun s s' hs h => ?_,
          fun tmp loadOk w hA hB => ?_⟩
  · unfold play_move at h
    by_cases hp : pid ≠ s.current_player
    · rw [if_pos hp] at h; exact absurd h (by simp)
    · push_neg at hp
      have hcp : ValidSeat (pid % 4 + 1) := by
        constructor
        · omega
        · have : pid % 4 < 4 := Nat.mod_lt _ (by omega)
          omega
      have hprev : ∀ p ∈ s.previous_players ++ [pid], ValidSeat p := by
        intro p hpmem
        rcases List.mem_append.mp hpmem with hmem | hmem
        · exact hs.2 p hmem
        · simp only [List.mem_singleton] at hmem
          subst hmem
          exact hp ▸ hs.1
      rw [if_neg (by simpa using hp)] at h
      by_cases hmv : move ≠ "pass"
      · rw [if_pos hmv] at h
        cases hap : ap s.board pid move with
        | none => rw [hap] at h; exact absurd h (by simp)
        | some b =>
            rw [hap] at h
            injection h with h'
            subst h'
            exact ⟨hcp, hprev⟩
      · rw [if_neg hmv] at h
        injection h with h'
        subst h'
        exact ⟨hcp, hprev⟩
  · unfold undo_last_move at h
    by_cases hp : s.previous_players = []
    · rw [dif_pos hp] at h
      injection h with h'
      subst h'
      exact hs
    · rw [dif_neg hp] at h
      cases hh : s.hist with
      | nil => rw [hh] at h; exact absurd h (by simp)
      | cons b rest =>
          rw [hh] at h
          injection h with h'
          subst h'
          refine ⟨hs.2 _ (List.getLast_mem hp), fun p hpmem => ?_⟩
          exact hs.2 p (List.dropLast_subset _ hpmem)
  · unfold set_to_state
    cases loadOk with
    | true => exact ⟨hA.1, hB.2⟩
    | false => exact hB


/-- Witness for C10 at concrete inputs: the invariant holds for the
state reached by seat 1's opening move, and is kept by a failing
`set_to_state`. -/
theorem current_player_always_valid_seat_witness :
    SeatInv cePre ∧ SeatInv (set_to_state "t.blksgf" false ceWorld).1.B :=
  have h0 : SeatInv (initState board0) := by
    unfold SeatInv ValidSeat
    refine ⟨⟨?_, ?_⟩, ?_⟩ <;> simp [initState]
  have h1 : SeatInv cePre :=
    current_player_always_valid_seat.2.1 exApply (initState board0) 1 "a1"
      cePre h0 rfl
  ⟨h1, current_player_always_valid_seat.2.2.2 "t.blksgf" false ceWorld h1 h0⟩

/-! ## C7: set_to_state -/

/-- C7 (amended): when the engine accepts the load, `B.set_to_state(A)`
copies A's board, engine history and `current_player` into B, leaves A
unmodified, and removes the temporary file; but when the load step
fails, the exception propagates before `os.remove` runs, so A and B are
unmodified **and the temporary file is left on disk** (there is no
try/finally around the cleanup). -/
theorem set_to_state_contract (tmp : String) (w : CloneWorld) :
    (set_to_state tmp true w).2 = Option.none ∧
    (set_to_state tmp true w).1.A = w.A ∧
    (set_to_state tmp true w).1.B.board = w.A.board ∧
    (set_to_state tmp true w).1.B.hist = w.A.hist ∧
    (set_to_state tmp true w).1.B.current_player = w.A.current_player ∧
    (set_to_state tmp true w).1.files = w.files ∧
    (set_to_state tmp false w).2 = Option.some "load-failed" ∧
    (set_to_state tmp false w).1.A = w.A ∧
    (set_to_state tmp false w).1.B = w.B ∧
    (set_to_state tmp false w).1.files =
      (tmp, (w.A.board, w.A.hist)) :: w.files := by
  refine ⟨rfl, rfl, rfl, rfl, rfl, ?_, rfl, rfl, rfl, rfl⟩
  show ((tmp, (w.A.board, w.A.hist)) :: w.files).eraseP
      (fun f => f.1 == tmp) = w.files
  exact List.eraseP_cons_of_pos (by simp)

/-- Counterexample to C7 as stated: when the load step fails the
temporary file is **not** deleted — it is still on disk after the
exception. -/
theorem set_to_state_cleanup_counterexample :
    (set_to_state "t.blksgf" false ceWorld).2 = Option.some "load-failed" ∧
    ((set_to_state "t.blksgf" false ceWorld).1.files.any
      (fun f => f.1 == "t.blksgf")) = true :=
  ⟨rfl, rfl⟩

/-! ## C8: the session pool -/

theorem lookup_mem_of_eq_some {α β : Type} [BEq α] [LawfulBEq α]
    {l : List (α × β)} {k : α} {v : β}
    (h : l.lookup k = Option.some v) : (k, v) ∈ l := by
  induction l with
  | nil => simp [List.lookup] at h
  | cons p t ih =>
      obtain ⟨a, b⟩ := p
      cases hk : (k == a) with
      | true =>
          simp [List.lookup_cons, hk] at h
          have hka : k = a := by simpa using hk
          subst hka
          subst h
          exact List.mem_cons_self _ _
      | false =>
          simp [List.lookup_cons, hk] at h
          exact List.mem_cons_of_mem _ (ih h)

theorem lookup_cons_of_ne {α β : Type} [BEq α] [LawfulBEq α]
    (a : α × β) (t : List (α × β)) {k : α} (h : k ≠ a.1) :
    (a :: t).lookup k = t.lookup k := by
  obtain ⟨a1, b1⟩ := a
  have : (k == a1) = false := beq_eq_false_iff_ne.mpr h
  simp [List.lookup_cons, this]

theorem lookup_values_injective {α β : Type} [BEq α] [LawfulBEq α]
    {l : List (α × β)} (hnd : (l.map Prod.snd).Nodup)
    {k1 k2 : α} {v1 v2 : β}
    (h1 : l.lookup k1 = Option.some v1) (h2 : l.lookup k2 = Option.some v2)
    (hk : k1 ≠ k2) : v1 ≠ v2 := by
  intro hv
  subst hv
  have hm1 := lookup_mem_of_eq_some h1
  have hm2 := lookup_mem_of_eq_some h2
  have := List.inj_on_of_nodup_map hnd hm1 hm2 rfl
  exact hk (congrArg Prod.fst this)

theorem lookup_cons_self {α β : Type} [BEq α] [LawfulBEq α]
    (a : α) (b : β) (t : List (α × β)) :
    ((a, b) :: t).lookup a = Option.some b := by
  simp [List.lookup_cons]

theorem lookup_eq_of_perm {α β : Type} [BEq α] [LawfulBEq α]
    {l1 l2 : List (α × β)} (h : l1.Perm l2)
    (nd : (l1.map Prod.fst).Nodup) (k : α) :
    l1.lookup k = l2.lookup k := by
  induction h with
  | nil => rfl
  | cons x h ih =>
      obtain ⟨a, b⟩ := x
      by_cases hk : k = a
      · subst hk
        rw [lookup_cons_self, lookup_cons_self]
      · rw [lookup_cons_of_ne _ _ hk, lookup_cons_of_ne _ _ hk]
        refine ih ?_
        simp only [List.map_cons, List.nodup_cons] at nd
        exact nd.2
  | swap x y l =>
      obtain ⟨a, b⟩ := x
      obtain ⟨c, d⟩ := y
      have hca : c ≠ a := by
        simp only [List.map_cons, List.nodup_cons, List.mem_cons] at nd
        intro hc
        exact nd.1 (Or.inl hc)
      by_cases hk1 : k = c
      · subst hk1
        rw [lookup_cons_self, lookup_cons_of_ne _ _ hca,
            lookup_cons_self]
      · by_cases hk2 : k = a
        · subst hk2
          rw [lookup_cons_of_ne _ _ hk1, lookup_cons_self,
              lookup_cons_self]
        · rw [lookup_cons_of_ne _ _ hk1, lookup_cons_of_ne _ _ hk2,
              lookup_cons_of_ne _ _ hk2, lookup_cons_of_ne _ _ hk1]
  | trans h1 h2 ih1 ih2 =>
      refine (ih1 nd).trans (ih2 ?_)
      exact ((h1.map Prod.fst).nodup_iff).mp nd

/-- C8: two pool lookups whose kwargs resolve to equal values — in
particular kwargs that are key-order permutations of each other — return
the identical cached session; lookups whose resolved values differ in at
least one key return distinct sessions; and two fingerprints are equal
iff every default key resolves to the same value. -/
theorem session_pool_contract (kw1 kw2 : List (String × PyVal))
    (pool : SessionPool) (hwf : PoolWF pool) :
    (fingerprint kw1 = fingerprint kw2 →
      (get_session kw2 (get_session kw1 pool).2).1 =
        (get_session kw1 pool).1) ∧
    (kw1.Perm kw2 → (kw1.map Prod.fst).Nodup →
      fingerprint kw1 = fingerprint kw2) ∧
    (fingerprint kw1 ≠ fingerprint kw2 →
      (get_session kw2 (get_session kw1 pool).2).1 ≠
        (get_session kw1 pool).1) ∧
    (fingerprint kw1 = fingerprint kw2 ↔
      ∀ k ∈ default_kwargs.map Prod.fst, resolve kw1 k = resolve kw2 k) := by
  refine ⟨fun hfp => ?_, fun hperm hnd => ?_, fun hfp => ?_, ?_⟩
  · unfold get_session
    rw [← hfp]
    cases hl : pool.entries.lookup (fingerprint kw1) with
    | none =>
        simp only [hl]
        have h2 := lookup_cons_self (fingerprint kw1) pool.next pool.entries
        rw [h2]
    | some sid =>
        simp only [hl]
  · unfold fingerprint
    refine List.map_eq_map_iff.mpr (fun p _ => ?_)
    unfold resolve
    rw [lookup_eq_of_perm hperm hnd]
  · unfold get_session
    cases hl1 : pool.entries.lookup (fingerprint kw1) with
    | none =>
        simp only [hl1]
        have h2 := lookup_cons_of_ne (fingerprint kw1, pool.next)
          pool.entries (Ne.symm hfp)
        rw [h2]
        cases hl2 : pool.entries.lookup (fingerprint kw2) with
        | none =>
            simp only
            omega
        | some sid2 =>
            simp only
            have := hwf.1 _ (lookup_mem_of_eq_some hl2)
            omega
    | some sid1 =>
        simp only [hl1]
        cases hl2 : pool.entries.lookup (fingerprint kw2) with
        | none =>
            simp only
            have := hwf.1 _ (lookup_mem_of_eq_some hl1)
            omega
        | some sid2 =>
            simp only
            exact lookup_values_injective hwf.2 hl2 hl1 (Ne.symm hfp)
  · constructor
    · intro hfp k hk
      obtain ⟨p, hp, hpk⟩ := List.mem_map.mp hk
      have := List.map_eq_map_iff.mp (by exact hfp) p hp
      have hval := congrArg Prod.snd this
      simpa [hpk] using hval
    · intro hall
      unfold fingerprint
      refine List.map_eq_map_iff.mpr (fun p hp => ?_)
      have := hall p.1 (List.mem_map.mpr ⟨p, hp, rfl⟩)
      rw [this]

/-- Witness for C8 at concrete inputs: from the empty pool, kwargs
`kw1` and its reordering `kw2` yield the identical session, while `kw3`
(one differing value) yields a distinct one. -/
theorem session_pool_contract_witness :
    (get_session kw2 (get_session kw1 emptyPool).2).1 =
      (get_session kw1 emptyPool).1 ∧
    (get_session kw3 (get_session kw1 emptyPool).2).1 ≠
      (get_session kw1 emptyPool).1 :=
  have hwf : PoolWF emptyPool := by
    unfold PoolWF emptyPool
    exact ⟨by simp, by simp⟩
  ⟨(session_pool_contract kw1 kw2 emptyPool hwf).1 (by decide),
   (session_pool_contract kw1 kw3 emptyPool hwf).2.2.1 (by decide)⟩

/-! ## C3: the greedy evaluator -/

/-- C3 (amended): `GreedyExternalPlayer.evaluate_board` always returns
the count of cells equal to `pid` minus the count of cells equal to
`4 - pid`; the value `4 - pid` is the seat two positions away in the
rotation only for seats 1 and 3 (for them the claim's description
holds), and the seat-1 scenario holds: five own / three opponent cells
score 2, beating four / four scoring 0, so the arg-max selects the
first board. -/
theorem greedy_evaluate_contract :
    (∀ (board : Board) (pid : Int), pid = 1 ∨ pid = 3 →
      evaluate_board pid board =
        (count_eq board pid : Int) -
          (count_eq board (spec_opponent_two_away pid) : Int)) ∧
    evaluate_board 1 boardA = 2 ∧
    evaluate_board 1 boardB = 0 ∧
    np_argmax [evaluate_board 1 boardA, evaluate_board 1 boardB] =
      Option.some 0 := by
  refine ⟨fun board pid hp => ?_, by decide, by decide, by decide⟩
  rcases hp with h | h <;>
    · subst h
      unfold evaluate_board spec_opponent_two_away
      norm_num

/-- Witness for C3's amended theorem: the seat-1 instance on `boardA`. -/
theorem greedy_evaluate_contract_witness :
    evaluate_board 1 boardA =
      (count_eq boardA 1 : Int) -
        (count_eq boardA (spec_opponent_two_away 1) : Int) :=
  greedy_evaluate_contract.1 boardA 1 (Or.inl rfl)

/-- Counterexample to C3 as stated: at seat 2, on a valid 20×20 board
with one cell of value 2, the code's score (0, because `4 - 2 = 2` makes
the player its own "opponent") differs from own-count minus the count of
the seat two positions away (1). -/
theorem greedy_opponent_counterexample :
    evaluate_board 2 ceBoardC3 ≠
      (count_eq ceBoardC3 2 : Int) -
        (count_eq ceBoardC3 (spec_opponent_two_away 2) : Int) := by decide

/-! ## C4: the externally-evaluated player on a pass-only move list -/

/-- C4: evaluation of the code at the failing input.  When the only
legal move is `"pass"` (a seat with no remaining placements), the
external player's move selection does **not** select and commit a move:
`calc_next_states` skips the pass, the candidate list is empty, and
`np.argmax` of the empty score list raises, so `play_move` aborts
without committing anything. -/
theorem external_player_pass_only_crashes :
    external_play_move (fun _ => 0) idApply ["pass"] (initState board0) 1 =
      .error "attempt to get argmax of an empty sequence" := rfl

/-! ## C9: normalization idempotence -/

theorem cells_normed_rot90 {m : Mat} (h : CellsNormed m) :
    CellsNormed (rot90 m) :=
  fun i j => h j i.rev

theorem cells_normed_iterate (k : Nat) {m : Mat} (h : CellsNormed m) :
    CellsNormed (rot90^[k] m) := by
  induction k generalizing m with
  | zero => simpa using h
  | succ n ih =>
      rw [Function.iterate_succ_apply]
      exact ih (cells_normed_rot90 h)

theorem cells_normed_rotate (pid : Int) {m : Mat} (h : CellsNormed m) :
    CellsNormed (rotate_board_to_perspective m pid) := by
  unfold rotate_board_to_perspective
  exact cells_normed_iterate _ h

theorem shifted_zero_normed (b : Mat) :
    CellsNormed
      (fun i j => if b i j = -1 then -1 else (b i j + (4 - 0)) % 4) := by
  intro i j
  by_cases h : b i j = -1
  · left
    simp [h]
  · right
    simp only [if_neg h]
    constructor
    · exact Int.emod_nonneg _ (by norm_num)
    · exact Int.emod_lt_of_pos _ (by norm_num)

theorem shift_zero_fixes {m : Mat} (h : CellsNormed m) :
    (fun i j => if m i j = -1 then -1 else (m i j + (4 - 0)) % 4) = m := by
  funext i j
  rcases h i j with h1 | ⟨h0, h4⟩
  · simp [h1]
  · have hne : m i j ≠ -1 := by omega
    simp only [if_neg hne]
    omega

theorem indexOf_cons_ne_head {α : Type} [BEq α] [LawfulBEq α]
    (l : List α) {a b : α} (h : b ≠ a) :
    (a :: l).indexOf b = l.indexOf b + 1 := by
  rw [List.indexOf_cons]
  have : (a == b) = false := beq_eq_false_iff_ne.mpr (Ne.symm h)
  rw [this]
  rfl

theorem rotate_zero_top_left {m : Mat} (h : (0 : Int) ∈ corner_pids m) :
    rotate_board_to_perspective m 0 0 0 = 0 := by
  unfold rotate_board_to_perspective
  rw [if_pos h]
  by_cases h0 : m 0 0 = 0
  · have hidx : (corner_pids m).indexOf 0 = 0 := by
      unfold corner_pids
      rw [h0]
      exact List.indexOf_cons_self _ _
    rw [hidx]
    exact h0
  · by_cases h1 : m 0 (Fin.last 19) = 0
    · have hidx : (corner_pids m).indexOf 0 = 1 := by
        unfold corner_pids
        rw [indexOf_cons_ne_head _ (Ne.symm h0), h1,
            List.indexOf_cons_self]
      rw [hidx]
      show m 0 ((0 : Fin 20).rev) = 0
      rw [show ((0 : Fin 20)).rev = Fin.last 19 from by decide]
      exact h1
    · by_cases h2 : m (Fin.last 19) (Fin.last 19) = 0
      · have hidx : (corner_pids m).indexOf 0 = 2 := by
          unfold corner_pids
          rw [indexOf_cons_ne_head _ (Ne.symm h0),
              indexOf_cons_ne_head _ (Ne.symm h1), h2,
              List.indexOf_cons_self]
        rw [hidx]
        show m ((0 : Fin 20).rev) ((0 : Fin 20).rev) = 0
        rw [show ((0 : Fin 20)).rev = Fin.last 19 from by decide]
        exact h2
      · have h3 : m (Fin.last 19) 0 = 0 := by
          unfold corner_pids at h
          simp only [List.mem_cons, List.not_mem_nil, or_false] at h
          rcases h with h | h | h | h
          · exact absurd h.symm h0
          · exact absurd h.symm h1
          · exact absurd h.symm h2
          · exact h.symm
        have hidx : (corner_pids m).indexOf 0 = 3 := by
          unfold corner_pids
          rw [indexOf_cons_ne_head _ (Ne.symm h0),
              indexOf_cons_ne_head _ (Ne.symm h1),
              indexOf_cons_ne_head _ (Ne.symm h2), h3,
              List.indexOf_cons_self]
        rw [hidx]
        show m ((0 : Fin 20).rev) (((0 : Fin 20).rev).rev) = 0
        rw [show ((0 : Fin 20)).rev = Fin.last 19 from by decide,
            show (Fin.last 19 : Fin 20).rev = 0 from by decide]
        exact h3

theorem rotate_zero_idem (m : Mat) :
    rotate_board_to_perspective (rotate_board_to_perspective m 0) 0 =
      rotate_board_to_perspective m 0 := by
  by_cases hmem : (0 : Int) ∈ corner_pids m
  · have htl := rotate_zero_top_left hmem
    set r := rotate_board_to_perspective m 0 with hr
    have hmem' : (0 : Int) ∈ corner_pids r := by
      unfold corner_pids
      rw [htl]
      exact List.mem_cons_self _ _
    have hidx : (corner_pids r).indexOf 0 = 0 := by
      unfold corner_pids
      rw [htl]
      exact List.indexOf_cons_self _ _
    show rotate_board_to_perspective r 0 = r
    unfold rotate_board_to_perspective
    rw [if_pos hmem', hidx]
    rfl
  · have hfix : rotate_board_to_perspective m 0 = m := by
      unfold rotate_board_to_perspective
      rw [if_neg hmem]
      rfl
    rw [hfix]
    exact hfix

/-- C9: normalizing to perspective 0 is idempotent — for every 20×20
board, `normalize_board_to_perspective (normalize_board_to_perspective
b 0) 0` equals `normalize_board_to_perspective b 0`. -/
theorem normalize_idempotent_at_zero (b : Mat) :
    normalize_board_to_perspective (normalize_board_to_perspective b 0) 0 =
      normalize_board_to_perspective b 0 := by
  unfold normalize_board_to_perspective
  rw [shift_zero_fixes (cells_normed_rotate 0 (shifted_zero_normed b))]
  exact rotate_zero_idem _

/-! ## C6: the board codec -/

theorem option_mapM_eq_none {α β : Type} (f : α → Option β) (l : List α)
    (h : ∃ a ∈ l, f a = Option.none) : l.mapM f = Option.none := by
  induction l with
  | nil => simp at h
  | cons x t ih =>
      rw [List.mapM_cons]
      rcases h with ⟨a, ha, hfa⟩
      rcases List.mem_cons.mp ha with rfl | hat
      · rw [hfa]
        rfl
      · cases hfx : f x with
        | none => rfl
        | some b =>
            rw [ih ⟨a, hat, hfa⟩]
            rfl

theorem option_mapM_eq_some_map {α β : Type} (d : β) (f : α → Option β)
    (l : List α) (h : ∀ a ∈ l, (f a).isSome) :
    l.mapM f = Option.some (l.map (fun a => (f a).getD d)) := by
  induction l with
  | nil => rfl
  | cons x t ih =>
      rw [List.mapM_cons]
      obtain ⟨b, hb⟩ :=
        Option.isSome_iff_exists.mp (h x (List.mem_cons_self _ _))
      rw [hb, ih (fun a ha => h a (List.mem_cons_of_mem _ ha))]
      simp [hb]

theorem option_mapM_forall_isSome {α β : Type} (f : α → Option β)
    {l : List α} {l' : List β} (h : l.mapM f = Option.some l') :
    ∀ a ∈ l, (f a).isSome := by
  induction l generalizing l' with
  | nil => simp
  | cons x t ih =>
      rw [List.mapM_cons] at h
      cases hfx : f x with
      | none =>
          rw [hfx] at h
          exact absurd h (by simp)
      | some b =>
          rw [hfx] at h
          cases hmt : t.mapM f with
          | none =>
              rw [hmt] at h
              exact absurd h (by simp)
          | some bs =>
              intro a ha
              rcases List.mem_cons.mp ha with rfl | hat
              · simp [hfx]
              · exact ih hmt a hat

/-- C6 (amended): board parsing maps each kept token through the fixed
glyph table after stripping capture arrows, dropping the first and last
line, and dropping the row label; it fails whenever a kept token is
outside the table (`KeyError`) and whenever the body rows have unequal
numbers of parseable cells (`np.array` rejects a ragged nesting); but a
dump whose body rows all have the **same** count of parseable cells
parses without error even when that count is below 20, so the claim's
"fails whenever a body row has fewer than 20 parseable cells" does not
hold.  Being a function of its input, the parser is pure and
deterministic; the conjunct on `fullDump` exhibits the fixed table on a
complete 20×20 dump with a capture arrow and an annotation column. -/
theorem parse_board_contract (text : List Char) :
    ((∃ r ∈ board_rows text, ∃ t ∈ r, conversion_map t = Option.none) →
      parse_gtp_board_to_matrix text = .error "KeyError") ∧
    ((∀ r ∈ board_rows text, ∀ t ∈ r, (conversion_map t).isSome) →
      (rows_uniform (converted_rows text) = true →
        parse_gtp_board_to_matrix text = .ok (converted_rows text)) ∧
      (rows_uniform (converted_rows text) = false →
        parse_gtp_board_to_matrix text = .error "inhomogeneous shape")) ∧
    parse_gtp_board_to_matrix fullDump = .ok expectedFull := by
  have hkey : (∃ r ∈ board_rows text, ∃ t ∈ r, conversion_map t = Option.none) →
      (board_rows text).mapM (fun r => r.mapM conversion_map) = Option.none := by
    rintro ⟨r, hr, ht⟩
    exact option_mapM_eq_none _ _ ⟨r, hr, option_mapM_eq_none _ _ ht⟩
  have hok : (∀ r ∈ board_rows text, ∀ t ∈ r, (conversion_map t).isSome) →
      (board_rows text).mapM (fun r => r.mapM conversion_map) =
        Option.some (converted_rows text) := by
    intro h
    have houter := option_mapM_eq_some_map ([] : List Int)
      (fun r => r.mapM conversion_map) (board_rows text)
      (fun r hr => by
        show (r.mapM conversion_map).isSome = true
        rw [option_mapM_eq_some_map 0 _ r (h r hr)]
        rfl)
    rw [houter]
    unfold converted_rows
    refine congrArg _ (List.map_eq_map_iff.mpr (fun r hr => ?_))
    show (r.mapM conversion_map).getD [] =
      r.map (fun t => (conversion_map t).getD 0)
    rw [option_mapM_eq_some_map 0 _ r (h r hr)]
    rfl
  refine ⟨fun h => ?_, fun h => ⟨fun hu => ?_, fun hu => ?_⟩, by rfl⟩
  · unfold parse_gtp_board_to_matrix
    rw [hkey h]
  · unfold parse_gtp_board_to_matrix
    rw [hok h]
    show (if ((converted_rows text).all
        (fun r => r.length == ((converted_rows text).headD []).length)) = true
      then Except.ok (converted_rows text)
      else Except.error "inhomogeneous shape") =
        Except.ok (converted_rows text)
    unfold rows_uniform at hu
    rw [if_pos hu]
  · unfold parse_gtp_board_to_matrix
    rw [hok h]
    show (if ((converted_rows text).all
        (fun r => r.length == ((converted_rows text).headD []).length)) = true
      then Except.ok (converted_rows text)
      else Except.error "inhomogeneous shape") =
        Except.error "inhomogeneous shape"
    unfold rows_uniform at hu
    rw [if_neg (by rw [hu]; exact Bool.false_ne_true)]

/-- Witness for C6's amended theorem: a dump with the unknown glyph `Z`
fails with the key error, and the uniformly short dump parses. -/
theorem parse_board_contract_witness :
    parse_gtp_board_to_matrix ceBadDump = .error "KeyError" ∧
    parse_gtp_board_to_matrix ceShortDump = .ok (converted_rows ceShortDump) :=
  ⟨(parse_board_contract ceBadDump).1 (by decide),
   ((parse_board_contract ceShortDump).2.1 (by decide)).1 (by decide)⟩

/-- Counterexample to C6 as stated: a dump whose body rows each hold
only three parseable cells parses **without** a malformed-board error
(to a 2×3 matrix), although every row has fewer than 20 parseable
cells. -/
theorem parse_short_rows_counterexample :
    parse_gtp_board_to_matrix ceShortDump = .ok [[0, 1, -1], [2, 3, -1]] ∧
    ([[0, 1, -1], [2, 3, -1]] : List (List Int)).all
      (fun r => decide (r.length < 20)) = true :=
  ⟨rfl, rfl⟩

/-! ## C5: the game loop -/

theorem play_game_loop_exit {G : Type} (C : GameClock) (finished : G → Bool)
    (current : G → Nat) (players : List (SimPlayer G))
    (start timeout i : Nat) (g : G)
    (h : ¬(finished g = false ∧ C.read i - start < timeout)) :
    play_game_loop C finished current players start timeout i g = g := by
  unfold play_game_loop
  rw [dif_neg h]

theorem play_game_loop_step {G : Type} (C : GameClock) (finished : G → Bool)
    (current : G → Nat) (players : List (SimPlayer G))
    (start timeout i : Nat) (g : G)
    (h1 : finished g = false) (h2 : C.read i - start < timeout) :
    play_game_loop C finished current players start timeout i g =
      play_game_loop C finished current players start timeout (i + 1)
        ((players.getD (current g - 1) ⟨0, Option.none, id⟩).step g) := by
  conv_lhs => rw [play_game_loop]
  rw [dif_pos ⟨h1, h2⟩]

/-- C5 (amended): `play_game` rebinds every player to the session (their
`sess` field becomes the session), then loops: while the session is
unfinished and the elapsed wall-clock time is below the timeout, it
steps the player at **list position** `current_player - 1` — which is
the player whose seat equals `current_player` exactly when the player
list is in seat order (last conjunct); once the game finishes or the
timeout is reached the loop simply returns the session state, with no
error. -/
theorem play_game_contract {G : Type} (C : GameClock) (finished : G → Bool)
    (current : G → Nat) (players : List (SimPlayer G)) (timeout : Nat)
    (g : G) :
    ((play_game C finished current players timeout g).1 =
      players.map (fun p => set_pentobi_session p g)) ∧
    (∀ p ∈ (play_game C finished current players timeout g).1,
      p.sess = Option.some g) ∧
    ((play_game C finished current players timeout g).2 =
      play_game_loop C finished current
        (players.map (fun p => set_pentobi_session p g)) (C.read 0) timeout
        1 g) ∧
    (∀ (ps : List (SimPlayer G)) (start i : Nat) (h : G),
      finished h = false → C.read i - start < timeout →
      play_game_loop C finished current ps start timeout i h =
        play_game_loop C finished current ps start timeout (i + 1)
          ((ps.getD (current h - 1) ⟨0, Option.none, id⟩).step h)) ∧
    (∀ (ps : List (SimPlayer G)) (start i : Nat) (h : G),
      finished h = true ∨ ¬ C.read i - start < timeout →
      play_game_loop C finished current ps start timeout i h = h) ∧
    (∀ (ps : List (SimPlayer G)) (h : G) (d : SimPlayer G),
      (∀ n (hn : n < ps.length), ps[n].pid = n + 1) →
      1 ≤ current h → current h ≤ ps.length →
      (ps.getD (current h - 1) d).pid = current h) := by
  refine ⟨rfl, ?_, rfl, ?_, ?_, ?_⟩
  · intro p hp
    obtain ⟨q, hq, rfl⟩ := List.mem_map.mp hp
    rfl
  · intro ps start i h h1 h2
    exact play_game_loop_step C finished current ps start timeout i h h1 h2
  · intro ps start i h hd
    refine play_game_loop_exit C finished current ps start timeout i h ?_
    rcases hd with hd | hd
    · intro hc
      rw [hd] at hc
      exact absurd hc.1 (by simp)
    · intro hc
      exact hd hc.2
  · intro ps h d hseat h1 h2
    have hlt : current h - 1 < ps.length := by omega
    rw [List.getD_eq_getElem ps d hlt]
    have := hseat (current h - 1) hlt
    omega

/-- Witness for C5's amended theorem at concrete inputs: the rebound
player list, one loop step under an open clock, and a timeout exit. -/
theorem play_game_contract_witness :
    ((play_game ceClock ceFinished ceCurrent cePlayers 100 0).1 =
      cePlayers.map (fun p => set_pentobi_session p 0)) ∧
    play_game_loop ceClock ceFinished ceCurrent
        (cePlayers.map (fun p => set_pentobi_session p 0)) 0 100 1 0 =
      play_game_loop ceClock ceFinished ceCurrent
        (cePlayers.map (fun p => set_pentobi_session p 0)) 0 100 2 10 ∧
    play_game_loop ceClock ceFinished ceCurrent
      ([] : List (SimPlayer Nat)) 0 100 5 3 = 3 :=
  ⟨(play_game_contract ceClock ceFinished ceCurrent cePlayers 100 0).1,
   (play_game_contract ceClock ceFinished ceCurrent cePlayers 100
      0).2.2.2.1 (cePlayers.map (fun p => set_pentobi_session p 0)) 0 1 0
      rfl (by decide),
   (play_game_contract ceClock ceFinished ceCurrent cePlayers 100
      0).2.2.2.2.1 [] 0 5 3 (Or.inl rfl)⟩

/-- Counterexample to C5 as stated: with the two players listed out of
seat order, the loop steps the player at list position
`current_player - 1`, whose seat is 2, not the player whose seat equals
the session's `current_player` (1): the game ends at state 10 (seat 2's
step), not state 1 (seat 1's step). -/
theorem play_game_wrong_player_counterexample :
    (play_game ceClock ceFinished ceCurrent cePlayers 100 0).2 = 10 ∧
    ceCurrent 0 = 1 ∧
    ((cePlayers.map (fun p => set_pentobi_session p 0)).getD
      (ceCurrent 0 - 1) ⟨0, Option.none, id⟩).pid = 2 ∧
    (((cePlayers.filter (fun p => p.pid == 1)).headD
      ⟨0, Option.none, id⟩).step 0 = 1) ∧
    (10 : Nat) ≠ 1 := by
  refine ⟨?_, rfl, rfl, rfl, by decide⟩
  show play_game_loop ceClock ceFinished ceCurrent
      (cePlayers.map (fun p => set_pentobi_session p 0)) (ceClock.read 0)
      100 1 0 = 10
  rw [play_game_loop_step ceClock ceFinished ceCurrent
      (cePlayers.map (fun p => set_pentobi_session p 0)) (ceClock.read 0)
      100 1 0 rfl (by decide)]
  rw [play_game_loop_exit ceClock ceFinished ceCurrent
      (cePlayers.map (fun p => set_pentobi_session p 0)) (ceClock.read 0)
      100 2 _ (by decide)]
  rfl
